import Mathlib

/-!
Shallow embedding of the `tonho` lexical analyser (package `tonho`, file with
the lexer: `Token`, `lexerLocation`, the token-kind constants, `keywords`,
`lexer`, `Lex`, `lex`, `nextToken`, `newToken`, `lexIdentifier`, `lexString`,
`lexNumber`, `advance`, `peek`, `eof`, `lookahead`, `location`,
`isIdentifierSegment`).

Modelling conventions:
* Go strings are modelled as `List Char`; each element models one byte of the
  Go string read as a rune (`rune(l.input[i])`).  This is exact for ASCII
  input, which is all the concrete inputs used below.
* `unicode.IsLetter` / `unicode.IsDigit` are modelled by their ASCII
  fragments `Char.isAlpha` / `Char.isDigit` (exact on bytes below 0x80).
* Go indexing `s[i]` and slicing `s[lo:hi]` panic when out of range
  (`0 <= i < len s`, resp. `0 <= lo <= hi <= len s`).  A panic is modelled by
  `none`: every scanner operation returns an `Option`, and `none` propagates.
* The top-level scan loop `lex` runs until `position >= len(input)`; every
  loop body strictly increases `position`, so `len(input) + 1` iterations
  always suffice.  It is modelled with that fuel (`lexLoopF`); the theorem
  `lexLoopF_stable` proves the result does not depend on the fuel once the
  fuel is at least `len(input) + 1 - position`.
-/

namespace tonho

/-- Token kinds, in the order of the Go `iota` block (`EOF = iota`, ...). -/
def EOF : Nat := 0

def Error : Nat := 1

def Identifier : Nat := 2

def Decimal : Nat := 3

def Int : Nat := 4

def String : Nat := 5

def Fun : Nat := 6

def Val : Nat := 7

def Var : Nat := 8

def For : Nat := 9

def While : Nat := 10

def Loop : Nat := 11

def If : Nat := 12

def Else : Nat := 13

def When : Nat := 14

def Plus : Nat := 15

def Minus : Nat := 16

def Asterisk : Nat := 17

def Slash : Nat := 18

def Percent : Nat := 19

def Equal : Nat := 20

def NotEqual : Nat := 21

def Less : Nat := 22

def LessEqual : Nat := 23

def Greater : Nat := 24

def GreaterEqual : Nat := 25

def And : Nat := 26

def Or : Nat := 27

def Not : Nat := 28

def Assign : Nat := 29

def LeftParen : Nat := 30

def RightParen : Nat := 31

def LeftBrace : Nat := 32

def RightBrace : Nat := 33

def LeftBracket : Nat := 34

def RightBracket : Nat := 35

def Comma : Nat := 36

def Dot : Nat := 37

def Colon : Nat := 38

def Semi : Nat := 39

def Arrow : Nat := 40

def Comment : Nat := 41

def Newline : Nat := 42

/-- `lexerLocation` (Go struct): a location in the source code. -/
structure lexerLocation where
  start : Nat
  «end» : Nat
  text : List Char
  file : List Char
  deriving DecidableEq, Repr

/-- `Token` (Go struct): kind, text, location and full text. -/
structure Token where
  Kind : Nat
  Text : List Char
  location : lexerLocation
  FullText : List Char
  deriving DecidableEq, Repr

/-- Accessor `Start()` of `lexerLocation`. -/
def lexerLocation.Start (l : lexerLocation) : Nat := l.start

/-- Accessor `End()` of `lexerLocation`. -/
def lexerLocation.End (l : lexerLocation) : Nat := l.«end»

/-- Accessor `Text()` of `lexerLocation`: the text of the whole buffer. -/
def lexerLocation.Text (l : lexerLocation) : List Char := l.text

/-- Accessor `File()` of `lexerLocation`. -/
def lexerLocation.File (l : lexerLocation) : List Char := l.file

/-- `Token.Location()`: returns the token's location. -/
def Token.Location (t : Token) : lexerLocation := t.location

/-- Go `NewToken(kind, text, fullText)`: pure data assembly; the location is
attached afterwards by the scanner (the Go zero value is modelled by the
all-empty location). -/
def NewToken (kind : Nat) (text fullText : List Char) : Token :=
  { Kind := kind, Text := text, FullText := fullText,
    location := { start := 0, «end» := 0, text := [], file := [] } }

/-- `lexer` (Go struct): the scanner state. -/
structure lexer where
  filename : List Char
  input : List Char
  tokens : List Token
  position : Nat
  start : Nat
  deriving DecidableEq, Repr

/-- Go string indexing `s[i]` (panics when `i >= len s`, modelled by
`none`).  Used for `l.peek()` (`i = position`) and `l.lookahead(k)`
(`i = position + k`). -/
def goIndex (s : List Char) (i : Nat) : Option Char := s.get? i

/-- The value of an in-range Go slice `s[lo:hi]`. -/
def listSlice (s : List Char) (lo hi : Nat) : List Char := (s.drop lo).take (hi - lo)

/-- Go string slicing `s[lo:hi]`: panics (modelled by `none`) unless
`lo <= hi <= len s`. -/
def goSlice (s : List Char) (lo hi : Nat) : Option (List Char) :=
  if lo ≤ hi ∧ hi ≤ s.length then some (listSlice s lo hi) else none

/-- Go `unicode.IsLetter` on the runes that occur here (ASCII fragment). -/
def unicodeIsLetter (c : Char) : Bool := c.isAlpha

/-- Go `unicode.IsDigit` on the runes that occur here (ASCII fragment). -/
def unicodeIsDigit (c : Char) : Bool := c.isDigit

/-- `isIdentifierSegment(r)`: letter, digit, underscore, dot or apostrophe. -/
def isIdentifierSegment (r : Char) : Bool :=
  unicodeIsLetter r || unicodeIsDigit r || r == '_' || r == '.' || r == '\''

/-- The `keywords` map of the Go source, as a lookup function. -/
def keywords (s : List Char) : Option Nat :=
  if s = "fun".toList then some Fun
  else if s = "val".toList then some Val
  else if s = "var".toList then some Var
  else if s = "for".toList then some For
  else if s = "while".toList then some While
  else if s = "loop".toList then some Loop
  else if s = "if".toList then some If
  else if s = "else".toList then some Else
  else if s = "when".toList then some When
  else none

/-- `l.location()`: the span `[l.start, l.position)` over the whole input
buffer and file name. -/
def lexer.location (l : lexer) : lexerLocation :=
  { start := l.start, «end» := l.position, text := l.input, file := l.filename }

/-- `l.newToken(kind)`: slices `l.input[l.start:l.position]` (both `Text` and
`FullText` get the same slice) and attaches `l.location()`. -/
def lexer.newToken (l : lexer) (kind : Nat) : Option Token :=
  (goSlice l.input l.start l.position).map fun text =>
    { NewToken kind text text with location := l.location }

/-- `l.tokens = append(l.tokens, t)`. -/
def lexer.appendTok (l : lexer) (t : Token) : lexer :=
  { l with tokens := l.tokens ++ [t] }

/-- The pattern `l.tokens = append(l.tokens, l.newToken(kind))` followed by
advancing the cursor by `adv` (either the shared `l.position++` at the end of
`nextToken`'s switch, or an explicit `l.advance(2)`). -/
def emitAdvance (l : lexer) (kind adv : Nat) : Option (lexer × Bool) :=
  (l.newToken kind).map fun t =>
    ({ l.appendTok t with position := l.position + adv }, true)

/-- Final position of the identifier loop of `lexIdentifier`:
after `l.advance(1)` the loop `for !l.eof() && isIdentifierSegment(l.peek())
{ l.advance(1) }` consumes exactly the longest prefix of identifier-segment
characters of the remaining input. -/
def identStop (l : lexer) : Nat :=
  l.position + 1 + ((l.input.drop (l.position + 1)).takeWhile isIdentifierSegment).length

/-- `l.lexIdentifier()`: skip the first letter, consume identifier segments,
look the matched text up in `keywords`, and emit a keyword or `Identifier`
token.  Always returns `true` in Go. -/
def lexer.lexIdentifier (l : lexer) : Option (lexer × Bool) :=
  let l2 : lexer := { l with position := identStop l }
  (goSlice l2.input l2.start l2.position).bind fun identifier =>
    match keywords identifier with
    | some keyword => (l2.newToken keyword).map fun t => (l2.appendTok t, true)
    | none => (l2.newToken Identifier).map fun t => (l2.appendTok t, true)

/-- The digit/dot loop of `lexNumber`, over the input remaining after the
first digit.  Returns the number of consumed characters and whether the
decimal branch fired.  It mirrors the Go loop
`for !l.eof() && unicode.IsDigit(l.peek()) { l.advance(1);
  if !l.eof() && l.peek() == '.' { l.advance(1); <digits>; <Decimal>; break } }`:
each recursive step consumes one digit; when the character after that digit
is a dot, the dot and the following digits are consumed and the loop stops
with the decimal flag set. -/
def numberScan : List Char → Nat × Bool
  | [] => (0, false)
  | c :: rest =>
    if unicodeIsDigit c then
      match rest with
      | [] => (1, false)
      | d :: rest2 =>
        if d = '.' then
          (2 + (rest2.takeWhile unicodeIsDigit).length, true)
        else
          let r := numberScan rest
          (1 + r.1, r.2)
    else (0, false)

/-- `l.lexNumber()`: skip the first digit, run the digit/dot loop; when the
decimal branch fired, a `Decimal` token is appended first (the `break` leaves
the loop), and then — unconditionally, the Go source has no early return —
an `Int` token over the same span is appended as well. -/
def lexer.lexNumber (l : lexer) : Option (lexer × Bool) :=
  let r := numberScan (l.input.drop (l.position + 1))
  let l2 : lexer := { l with position := l.position + 1 + r.1 }
  if r.2 then
    (l2.newToken Decimal).bind fun tDec =>
      let l3 := l2.appendTok tDec
      (l3.newToken Int).map fun tInt => (l3.appendTok tInt, true)
  else
    (l2.newToken Int).map fun tInt => (l2.appendTok tInt, true)

/-- Final position of `lexNumber`: the first digit plus everything the
digit/dot loop consumes. -/
def numStop (l : lexer) : Nat :=
  l.position + 1 + (numberScan (l.input.drop (l.position + 1))).1

/-- Token emitted by `lexNumber` (with kind `Decimal` or `Int`): both `Text`
and `FullText` are the slice `l.input[l.start:numStop l]`, the exact matched
lexeme when the scan started at `l.start = l.position`. -/
def numTokenAt (l : lexer) (kind : Nat) : Token :=
  { Kind := kind, Text := listSlice l.input l.start (numStop l),
    FullText := listSlice l.input l.start (numStop l),
    location := { start := l.start, «end» := numStop l,
                  text := l.input, file := l.filename } }

/-- Final position of the quote-searching loop of `lexString`: after skipping
the opening quote, `for !l.eof() && l.peek() != '"' { l.advance(1) }` stops at
the first `"` or at the end of input. -/
def strStop (l : lexer) : Nat :=
  l.position + 1 + ((l.input.drop (l.position + 1)).takeWhile (fun c => c != '"')).length

/-- `l.lexString()`: skip the opening quote, scan to the closing quote (or end
of input), then `l.advance(1)` past it — even at end of input, where
`position` becomes `len(input) + 1` and the slice
`l.input[l.start:l.position]` is out of range (Go panic, modelled by `none`).
`Text` is the content strictly between the quotes, `FullText` includes both
quotes. -/
def lexer.lexString (l : lexer) : Option (lexer × Bool) :=
  let pos2 := strStop l + 1
  (goSlice l.input (l.start + 1) (pos2 - 1)).bind fun text =>
    (goSlice l.input l.start pos2).map fun fullText =>
      ({ l with
          tokens := l.tokens ++ [{ NewToken String text fullText with
            location := { start := l.start, «end» := pos2,
                          text := l.input, file := l.filename } }],
          position := pos2 }, true)

/-- Token emitted by `lexString`: `Text` is the content strictly between the
quotes (`l.input[l.start+1 : strStop l]`), `FullText` the lexeme including
both quote characters (`l.input[l.start : strStop l + 1]`). -/
def strTokenAt (l : lexer) : Token :=
  { Kind := String, Text := listSlice l.input (l.start + 1) (strStop l),
    FullText := listSlice l.input l.start (strStop l + 1),
    location := { start := l.start, «end» := strStop l + 1,
                  text := l.input, file := l.filename } }

/-- `l.nextToken()`: dispatch on the character at the cursor.  The Go switch
falls through to a shared `l.position++; return true`; branches that
`return true` early after `l.advance(2)` are modelled by `emitAdvance _ _ 2`.
Note the `'-'` default branch appends the `Minus` token twice (Go lines
273 and 275), and `';'` is emitted with the `Comma` kind. -/
def lexer.nextToken (l : lexer) : Option (lexer × Bool) :=
  match goIndex l.input l.position with
  | none => none
  | some c =>
    if c = ' ' ∨ c = '\t' ∨ c = '\r' then some ({ l with position := l.position + 1 }, true)
    else if c = '%' then emitAdvance l Percent 1
    else if c = '.' then emitAdvance l Dot 1
    else if c = ',' then emitAdvance l Comma 1
    else if c = ';' then emitAdvance l Comma 1
    else if c = '{' then emitAdvance l LeftBrace 1
    else if c = '}' then emitAdvance l RightBrace 1
    else if c = '[' then emitAdvance l LeftBracket 1
    else if c = ']' then emitAdvance l RightBracket 1
    else if c = '(' then emitAdvance l LeftParen 1
    else if c = ')' then emitAdvance l RightParen 1
    else if c = '+' then emitAdvance l Plus 1
    else if c = '/' then emitAdvance l Slash 1
    else if c = '*' then emitAdvance l Asterisk 1
    else if c = '-' then
      match goIndex l.input (l.position + 1) with
      | none => none
      | some la =>
        if la = '>' then emitAdvance l Arrow 2
        else (l.newToken Minus).bind fun t => emitAdvance (l.appendTok t) Minus 1
    else if c = '|' then
      match goIndex l.input (l.position + 1) with
      | none => none
      | some la =>
        if la = '|' then emitAdvance l Or 2
        else some ({ l with position := l.position + 1 }, true)
    else if c = '&' then
      match goIndex l.input (l.position + 1) with
      | none => none
      | some la =>
        if la = '&' then emitAdvance l And 2
        else some ({ l with position := l.position + 1 }, true)
    else if c = '!' then
      match goIndex l.input (l.position + 1) with
      | none => none
      | some la =>
        if la = '=' then emitAdvance l NotEqual 2
        else emitAdvance l Equal 1
    else if c = '>' then
      match goIndex l.input (l.position + 1) with
      | none => none
      | some la =>
        if la = '=' then emitAdvance l GreaterEqual 2
        else emitAdvance l Greater 1
    else if c = '<' then
      match goIndex l.input (l.position + 1) with
      | none => none
      | some la =>
        if la = '=' then emitAdvance l LessEqual 2
        else emitAdvance l Less 1
    else if c = '=' then
      match goIndex l.input (l.position + 1) with
      | none => none
      | some la =>
        if la = '=' then emitAdvance l Equal 2
        else emitAdvance l Assign 1
    else if unicodeIsLetter c then l.lexIdentifier
    else if unicodeIsDigit c then l.lexNumber
    else if c = '"' then l.lexString
    else emitAdvance l Error 1

/-- The top-level loop of `l.lex()`, with explicit fuel (see the header
comment): each iteration sets `l.start = l.position`, appends the `EOF` token
and stops when the cursor has reached the end, and otherwise dispatches via
`nextToken` (whose Go result `false` would break the loop). -/
def lexLoopF : Nat → lexer → Option (List Token)
  | 0, _ => none
  | fuel + 1, l =>
    if l.input.length ≤ l.position then
      ({ l with start := l.position }.newToken EOF).map fun t => l.tokens ++ [t]
    else
      ({ l with start := l.position }.nextToken).bind fun r =>
        if r.2 then lexLoopF fuel r.1 else some r.1.tokens

/-- The fresh scanner state `lexer{filename: filename, input: input}` built by
`Lex` (the remaining Go fields take their zero values). -/
def mkLexer (filename input : List Char) : lexer :=
  { filename := filename, input := input, tokens := [], position := 0, start := 0 }

/-- `Lex(filename, input)`: run the scanner from a fresh state. -/
def Lex (filename input : List Char) : Option (List Token) :=
  lexLoopF (input.length + 1) (mkLexer filename input)

/-- The `EOF` token appended by `lex` on a run that completes: empty text,
empty span at the final offset. -/
def eofTokenAt (filename input : List Char) : Token :=
  { Kind := EOF, Text := [], FullText := [],
    location := { start := input.length, «end» := input.length,
                  text := input, file := filename } }

/-- The token built by `newToken` at a dispatch point (where
`l.start = l.position`): empty text, empty span at the cursor. -/
def opTok (l : lexer) (kind : Nat) : Token :=
  { Kind := kind, Text := [], FullText := [],
    location := { start := l.position, «end» := l.position,
                  text := l.input, file := l.filename } }

/-- The token `newToken` builds, as a function of the state. -/
def mkTok (l : lexer) (kind : Nat) : Token :=
  { Kind := kind, Text := listSlice l.input l.start l.position,
    FullText := listSlice l.input l.start l.position,
    location := { start := l.start, «end» := l.position,
                  text := l.input, file := l.filename } }

/-- Token emitted by `lexIdentifier` as a function of the dispatch state. -/
def identTokenAt (l : lexer) : Token :=
  { Kind := (keywords (listSlice l.input l.position (identStop l))).getD Identifier,
    Text := listSlice l.input l.position (identStop l),
    FullText := listSlice l.input l.position (identStop l),
    location := { start := l.position, «end» := identStop l,
                  text := l.input, file := l.filename } }

/-- Kinds that never violate the `goodTok` kind constraints. -/
abbrev kindOK (k : Nat) : Prop :=
  k ≠ Not ∧ k ≠ Colon ∧ k ≠ Semi ∧ k ≠ Comment ∧ k ≠ Newline

/-- Invariant satisfied by every token the scanner emits: its location spans
`[start, end]` with `start ≤ end ≤ len(input)` over the whole buffer and the
supplied file name; `Text = FullText` unless it is a string token; and its
kind is never `Not`, `Colon`, `Semi`, `Comment` or `Newline`. -/
def goodTok (filename input : List Char) (t : Token) : Prop :=
  t.location.text = input ∧ t.location.file = filename ∧
  t.location.start ≤ t.location.«end» ∧ t.location.«end» ≤ input.length ∧
  (t.Kind ≠ String → t.Text = t.FullText) ∧
  t.Kind ≠ Not ∧ t.Kind ≠ Colon ∧ t.Kind ≠ Semi ∧ t.Kind ≠ Comment ∧ t.Kind ≠ Newline

/-- What one successful `nextToken` step guarantees: the Go result is `true`,
file name and input are unchanged, the cursor strictly advances, and every
token of the new state was already present or satisfies `goodTok`. -/
def stepOK (l l1 : lexer) (b : Bool) : Prop :=
  b = true ∧ l1.filename = l.filename ∧ l1.input = l.input ∧
  l.position < l1.position ∧
  ∀ t ∈ l1.tokens, t ∈ l.tokens ∨ goodTok l.filename l.input t


/-- A successful Go index means the index is in range. -/
theorem goIndex_lt {s : List Char} {i : Nat} {c : Char} (h : goIndex s i = some c) :
    i < s.length := by
  by_contra hlt
  rw [goIndex, List.get?_eq_none.2 (Nat.le_of_not_lt hlt)] at h
  exact Option.noConfusion h

/-- Inversion for `newToken`: success forces `start ≤ position ≤ len(input)` and
determines the token completely. -/
theorem newToken_inv {l : lexer} {kind : Nat} {t : Token} (h : l.newToken kind = some t) :
    l.start ≤ l.position ∧ l.position ≤ l.input.length ∧ t = mkTok l kind := by
  rw [lexer.newToken, goSlice] at h
  split_ifs at h with hc
  · refine ⟨hc.1, hc.2, ?_⟩
    simp only [Option.map_some', Option.some.injEq] at h
    rw [← h]
    rfl
  · simp at h

/-- Computation rule for `newToken` under in-range slice bounds. -/
theorem newToken_eq {l : lexer} (kind : Nat) (h1 : l.start ≤ l.position)
    (h2 : l.position ≤ l.input.length) :
    l.newToken kind = some (mkTok l kind) := by
  rw [lexer.newToken, goSlice, if_pos ⟨h1, h2⟩]
  rfl

/-- Inversion for `emitAdvance`. -/
theorem emitAdvance_inv {l l1 : lexer} {b : Bool} {k a : Nat}
    (h : emitAdvance l k a = some (l1, b)) :
    b = true ∧ l.start ≤ l.position ∧ l.position ≤ l.input.length ∧
      l1 = { l with tokens := l.tokens ++ [mkTok l k], position := l.position + a } := by
  rw [emitAdvance] at h
  cases ht : l.newToken k <;> rw [ht] at h
  · simp at h
  · obtain ⟨hs, hp, htok⟩ := newToken_inv ht
    simp only [Option.map_some', Option.some.injEq, Prod.mk.injEq] at h
    subst htok
    exact ⟨h.2.symm, hs, hp, h.1.symm⟩


/-- Every token `newToken` builds satisfies the scanner invariant, provided its
kind is one the scanner emits. -/
theorem mkTok_good {l : lexer} {k : Nat} (hs : l.start ≤ l.position)
    (hp : l.position ≤ l.input.length) (hk : kindOK k) :
    goodTok l.filename l.input (mkTok l k) :=
  ⟨rfl, rfl, hs, hp, fun _ => rfl, hk.1, hk.2.1, hk.2.2.1, hk.2.2.2.1, hk.2.2.2.2⟩

/-- An `emitAdvance` branch is a correct scanner step. -/
theorem emitAdvance_step {l l1 : lexer} {b : Bool} {k a : Nat}
    (h : emitAdvance l k a = some (l1, b)) (hk : kindOK k) (ha : 0 < a) :
    stepOK l l1 b := by
  obtain ⟨hb, hs, hp, hl1⟩ := emitAdvance_inv h
  subst hl1 hb
  refine ⟨rfl, rfl, rfl, ?_, ?_⟩
  · show l.position < l.position + a
    omega
  intro u hu
  rcases List.mem_append.1 hu with hmem | hmem
  · exact Or.inl hmem
  · rcases List.mem_singleton.1 hmem with rfl
    exact Or.inr (mkTok_good hs hp hk)

/-- The keyword table only returns the keyword kinds `Fun`..`When`. -/
theorem keywords_range {s : List Char} {k : Nat} (h : keywords s = some k) :
    Fun ≤ k ∧ k ≤ When := by
  rw [keywords] at h
  split_ifs at h <;> injection h with h2 <;> subst h2 <;> decide


/-- The identifier loop consumes at least the first letter. -/
theorem identStop_ge (l : lexer) : l.position + 1 ≤ identStop l := by
  rw [identStop]; omega

/-- The identifier loop never leaves the input (its guard checks `eof`). -/
theorem identStop_le {l : lexer} (hp : l.position < l.input.length) :
    identStop l ≤ l.input.length := by
  have h1 := (List.takeWhile_prefix (l := l.input.drop (l.position + 1))
    isIdentifierSegment).length_le
  rw [List.length_drop] at h1
  rw [identStop]
  omega

/-- Shared step argument for the branches that advance the cursor first and
then emit one `newToken`. -/
theorem emitTok_step {l2 l l1 : lexer} {b : Bool} {k : Nat}
    (hfile : l2.filename = l.filename) (hin : l2.input = l.input)
    (htoks : ∀ t ∈ l2.tokens, t ∈ l.tokens ∨ goodTok l.filename l.input t)
    (hpos : l.position < l2.position) (hk : kindOK k)
    (h : (l2.newToken k).map (fun t => (l2.appendTok t, true)) = some (l1, b)) :
    stepOK l l1 b := by
  cases ht : l2.newToken k <;> rw [ht] at h
  · exact absurd h (by simp)
  · simp only [Option.map_some', Option.some.injEq, Prod.mk.injEq] at h
    obtain ⟨hs, hp, htok⟩ := newToken_inv ht
    obtain ⟨hl1, hb⟩ := h
    subst hb htok
    rw [← hl1]
    refine ⟨rfl, hfile, hin, hpos, ?_⟩
    intro u hu
    have hu2 : u ∈ l2.tokens ++ [mkTok l2 k] := hu
    rcases List.mem_append.1 hu2 with hmem | hmem
    · exact htoks u hmem
    · rcases List.mem_singleton.1 hmem with rfl
      have hg := mkTok_good hs hp hk
      rw [hfile, hin] at hg
      exact Or.inr hg

/-- `lexIdentifier` is a correct scanner step. -/
theorem lexIdentifier_step {l l1 : lexer} {b : Bool}
    (h : l.lexIdentifier = some (l1, b)) : stepOK l l1 b := by
  rw [lexer.lexIdentifier] at h
  cases hid : goSlice l.input l.start (identStop l) <;> rw [hid] at h
  · exact absurd h (by simp)
  case some ident =>
  simp only [Option.some_bind] at h
  have hge := identStop_ge l
  have hlt : l.position < identStop l := by omega
  rcases hkw : keywords ident with _ | kw <;> rw [hkw] at h
  · exact @emitTok_step { l with position := identStop l } l l1 b Identifier
      rfl rfl (fun t ht => Or.inl ht) hlt (by decide) h
  · have hr : 6 ≤ kw ∧ kw ≤ 14 := keywords_range hkw
    refine @emitTok_step { l with position := identStop l } l l1 b kw
      rfl rfl (fun t ht => Or.inl ht) hlt ⟨?_, ?_, ?_, ?_, ?_⟩ h
    · show kw ≠ 28
      omega
    · show kw ≠ 38
      omega
    · show kw ≠ 39
      omega
    · show kw ≠ 41
      omega
    · show kw ≠ 42
      omega


/-- Inversion for Go slicing: success forces in-range bounds. -/
theorem goSlice_inv {s : List Char} {lo hi : Nat} {v : List Char}
    (h : goSlice s lo hi = some v) :
    lo ≤ hi ∧ hi ≤ s.length ∧ v = listSlice s lo hi := by
  rw [goSlice] at h
  split_ifs at h with hc
  injection h with h2
  exact ⟨hc.1, hc.2, h2.symm⟩

/-- `lexNumber` is a correct scanner step (it may emit a `Decimal` and an `Int`
token over the same span). -/
theorem lexNumber_step {l l1 : lexer} {b : Bool}
    (h : l.lexNumber = some (l1, b)) : stepOK l l1 b := by
  simp only [lexer.lexNumber] at h
  have hlt : l.position < l.position + 1 + (numberScan (l.input.drop (l.position + 1))).1 := by
    omega
  split at h
  · cases htd : lexer.newToken
        { l with position := l.position + 1 + (numberScan (l.input.drop (l.position + 1))).1 }
        Decimal <;> rw [htd] at h
    · exact absurd h (by simp)
    case some tDec =>
      simp only [Option.some_bind] at h
      obtain ⟨hs, hp, htok⟩ := newToken_inv htd
      refine @emitTok_step
        ({ l with position := l.position + 1 + (numberScan (l.input.drop (l.position + 1))).1
         }.appendTok tDec) l l1 b Int rfl rfl ?_ hlt (by decide) h
      intro t ht
      have ht2 : t ∈ l.tokens ++ [tDec] := ht
      rcases List.mem_append.1 ht2 with hmem | hmem
      · exact Or.inl hmem
      · rcases List.mem_singleton.1 hmem with rfl
        subst htok
        exact Or.inr (mkTok_good hs hp (by decide))
  · exact @emitTok_step
      { l with position := l.position + 1 + (numberScan (l.input.drop (l.position + 1))).1 }
      l l1 b Int rfl rfl (fun t ht => Or.inl ht) hlt (by decide) h

/-- The string loop consumes at least the opening quote. -/
theorem strStop_ge (l : lexer) : l.position + 1 ≤ strStop l := by
  rw [strStop]; omega

/-- `lexString` is a correct scanner step when its slices are in range. -/
theorem lexString_step {l l1 : lexer} {b : Bool}
    (h : l.lexString = some (l1, b)) : stepOK l l1 b := by
  simp only [lexer.lexString] at h
  cases htx : goSlice l.input (l.start + 1) (strStop l + 1 - 1) <;> rw [htx] at h
  · exact absurd h (by simp)
  case some text =>
  cases hft : goSlice l.input l.start (strStop l + 1) <;> rw [hft] at h
  · exact absurd h (by simp)
  case some fullText =>
  simp only [Option.some_bind, Option.map_some', Option.some.injEq, Prod.mk.injEq] at h
  obtain ⟨hl1, hb⟩ := h
  obtain ⟨hlo, hhi, _⟩ := goSlice_inv hft
  have hge := strStop_ge l
  subst hb
  rw [← hl1]
  refine ⟨rfl, rfl, rfl, ?_, ?_⟩
  · show l.position < strStop l + 1
    omega
  intro u hu
  have hu2 : u ∈ l.tokens ++ [{ NewToken String text fullText with
    location := { start := l.start, «end» := strStop l + 1,
                  text := l.input, file := l.filename } }] := hu
  rcases List.mem_append.1 hu2 with hmem | hmem
  · exact Or.inl hmem
  · rcases List.mem_singleton.1 hmem with rfl
    refine Or.inr ⟨rfl, rfl, ?_, ?_, ?_, ?_, ?_, ?_, ?_, ?_⟩
    · show l.start ≤ strStop l + 1
      omega
    · show strStop l + 1 ≤ l.input.length
      exact hhi
    · intro hne
      exact absurd rfl hne
    · show String ≠ Not
      decide
    · show String ≠ Colon
      decide
    · show String ≠ Semi
      decide
    · show String ≠ Comment
      decide
    · show String ≠ Newline
      decide


/-- Advancing one character without emitting (whitespace, unmatched pipe or
ampersand) is a correct scanner step. -/
theorem skip_step {l l1 : lexer} {b : Bool}
    (h : some ({ l with position := l.position + 1 }, true) = some (l1, b)) :
    stepOK l l1 b := by
  simp only [Option.some.injEq, Prod.mk.injEq] at h
  obtain ⟨hl1, hb⟩ := h
  subst hb
  rw [← hl1]
  refine ⟨rfl, rfl, rfl, ?_, fun t ht => Or.inl ht⟩
  show l.position < l.position + 1
  omega

/-- The `'-'` fallback (which appends the `Minus` token twice) is a correct
scanner step. -/
theorem minus_fallback_step {l l1 : lexer} {b : Bool}
    (h : (l.newToken Minus).bind (fun t => emitAdvance (l.appendTok t) Minus 1) = some (l1, b)) :
    stepOK l l1 b := by
  cases hm : l.newToken Minus <;> rw [hm] at h
  · simp at h
  case some t =>
  simp only [Option.some_bind] at h
  obtain ⟨hb, hf, hi, hp, htok⟩ := emitAdvance_step h (by decide) (by decide)
  obtain ⟨hs0, hp0, htok0⟩ := newToken_inv hm
  refine ⟨hb, hf, hi, hp, ?_⟩
  intro u hu
  rcases htok u hu with hmem | hg
  · have hmem2 : u ∈ l.tokens ++ [t] := hmem
    rcases List.mem_append.1 hmem2 with hm2 | hm2
    · exact Or.inl hm2
    · rcases List.mem_singleton.1 hm2 with rfl
      subst htok0
      exact Or.inr (mkTok_good hs0 hp0 (by decide))
  · exact Or.inr hg

/-- Every successful `nextToken` dispatch returns `true`, keeps the file name
and input, strictly advances the cursor, and only appends invariant-satisfying
tokens. -/
theorem nextToken_step {l l1 : lexer} {b : Bool} (h : l.nextToken = some (l1, b)) :
    stepOK l l1 b := by
  rw [lexer.nextToken] at h
  split at h
  · exact absurd h (by simp)
  rename_i c heq
  by_cases h1 : c = ' ' ∨ c = '\t' ∨ c = '\r'
  · rw [if_pos h1] at h
    exact skip_step h
  rw [if_neg h1] at h
  by_cases h2 : c = '%'
  · rw [if_pos h2] at h
    exact emitAdvance_step h (by decide) (by decide)
  rw [if_neg h2] at h
  by_cases h3 : c = '.'
  · rw [if_pos h3] at h
    exact emitAdvance_step h (by decide) (by decide)
  rw [if_neg h3] at h
  by_cases h4 : c = ','
  · rw [if_pos h4] at h
    exact emitAdvance_step h (by decide) (by decide)
  rw [if_neg h4] at h
  by_cases h5 : c = ';'
  · rw [if_pos h5] at h
    exact emitAdvance_step h (by decide) (by decide)
  rw [if_neg h5] at h
  by_cases h6 : c = '{'
  · rw [if_pos h6] at h
    exact emitAdvance_step h (by decide) (by decide)
  rw [if_neg h6] at h
  by_cases h7 : c = '}'
  · rw [if_pos h7] at h
    exact emitAdvance_step h (by decide) (by decide)
  rw [if_neg h7] at h
  by_cases h8 : c = '['
  · rw [if_pos h8] at h
    exact emitAdvance_step h (by decide) (by decide)
  rw [if_neg h8] at h
  by_cases h9 : c = ']'
  · rw [if_pos h9] at h
    exact emitAdvance_step h (by decide) (by decide)
  rw [if_neg h9] at h
  by_cases h10 : c = '('
  · rw [if_pos h10] at h
    exact emitAdvance_step h (by decide) (by decide)
  rw [if_neg h10] at h
  by_cases h11 : c = ')'
  · rw [if_pos h11] at h
    exact emitAdvance_step h (by decide) (by decide)
  rw [if_neg h11] at h
  by_cases h12 : c = '+'
  · rw [if_pos h12] at h
    exact emitAdvance_step h (by decide) (by decide)
  rw [if_neg h12] at h
  by_cases h13 : c = '/'
  · rw [if_pos h13] at h
    exact emitAdvance_step h (by decide) (by decide)
  rw [if_neg h13] at h
  by_cases h14 : c = '*'
  · rw [if_pos h14] at h
    exact emitAdvance_step h (by decide) (by decide)
  rw [if_neg h14] at h
  by_cases h15 : c = '-'
  · rw [if_pos h15] at h
    split at h
    · exact absurd h (by simp)
    rename_i la hla
    by_cases hla2 : la = '>'
    · rw [if_pos hla2] at h
      exact emitAdvance_step h (by decide) (by decide)
    · rw [if_neg hla2] at h
      exact minus_fallback_step h
  rw [if_neg h15] at h
  by_cases h16 : c = '|'
  · rw [if_pos h16] at h
    split at h
    · exact absurd h (by simp)
    rename_i la hla
    by_cases hla2 : la = '|'
    · rw [if_pos hla2] at h
      exact emitAdvance_step h (by decide) (by decide)
    · rw [if_neg hla2] at h
      exact skip_step h
  rw [if_neg h16] at h
  by_cases h17 : c = '&'
  · rw [if_pos h17] at h
    split at h
    · exact absurd h (by simp)
    rename_i la hla
    by_cases hla2 : la = '&'
    · rw [if_pos hla2] at h
      exact emitAdvance_step h (by decide) (by decide)
    · rw [if_neg hla2] at h
      exact skip_step h
  rw [if_neg h17] at h
  by_cases h18 : c = '!'
  · rw [if_pos h18] at h
    split at h
    · exact absurd h (by simp)
    rename_i la hla
    by_cases hla2 : la = '='
    · rw [if_pos hla2] at h
      exact emitAdvance_step h (by decide) (by decide)
    · rw [if_neg hla2] at h
      exact emitAdvance_step h (by decide) (by decide)
  rw [if_neg h18] at h
  by_cases h19 : c = '>'
  · rw [if_pos h19] at h
    split at h
    · exact absurd h (by simp)
    rename_i la hla
    by_cases hla2 : la = '='
    · rw [if_pos hla2] at h
      exact emitAdvance_step h (by decide) (by decide)
    · rw [if_neg hla2] at h
      exact emitAdvance_step h (by decide) (by decide)
  rw [if_neg h19] at h
  by_cases h20 : c = '<'
  · rw [if_pos h20] at h
    split at h
    · exact absurd h (by simp)
    rename_i la hla
    by_cases hla2 : la = '='
    · rw [if_pos hla2] at h
      exact emitAdvance_step h (by decide) (by decide)
    · rw [if_neg hla2] at h
      exact emitAdvance_step h (by decide) (by decide)
  rw [if_neg h20] at h
  by_cases h21 : c = '='
  · rw [if_pos h21] at h
    split at h
    · exact absurd h (by simp)
    rename_i la hla
    by_cases hla2 : la = '='
    · rw [if_pos hla2] at h
      exact emitAdvance_step h (by decide) (by decide)
    · rw [if_neg hla2] at h
      exact emitAdvance_step h (by decide) (by decide)
  rw [if_neg h21] at h
  by_cases h22 : unicodeIsLetter c = true
  · rw [if_pos h22] at h
    exact lexIdentifier_step h
  rw [if_neg h22] at h
  by_cases h23 : unicodeIsDigit c = true
  · rw [if_pos h23] at h
    exact lexNumber_step h
  rw [if_neg h23] at h
  by_cases h24 : c = '"'
  · rw [if_pos h24] at h
    exact lexString_step h
  rw [if_neg h24] at h
  exact emitAdvance_step h (by decide) (by decide)


/-- The scan loop invariant: a completed scan only returns invariant-satisfying
tokens, and the last token is the `EOF` token with an empty span at
`len(input)`. -/
theorem lexLoopF_spec : ∀ (fuel : Nat) (l : lexer) (toks : List Token),
    lexLoopF fuel l = some toks →
    (∀ t ∈ l.tokens, goodTok l.filename l.input t) →
    (∀ t ∈ toks, goodTok l.filename l.input t) ∧
      toks.getLast? = some (eofTokenAt l.filename l.input) := by
  intro fuel
  induction fuel with
  | zero =>
    intro l toks h _
    exact absurd h (by simp [lexLoopF])
  | succ n ih =>
    intro l toks h hgood
    rw [lexLoopF] at h
    split at h
    case isTrue heof =>
      cases ht : ({ l with start := l.position }.newToken EOF) <;> rw [ht] at h
      · exact absurd h (by simp)
      case some t =>
      simp only [Option.map_some', Option.some.injEq] at h
      obtain ⟨hs, hp, htok⟩ := newToken_inv ht
      have hpos : l.position = l.input.length := by
        have hp2 : l.position ≤ l.input.length := hp
        omega
      have hteq : t = eofTokenAt l.filename l.input := by
        subst htok
        rw [mkTok, eofTokenAt]
        simp only [listSlice, Nat.sub_self, List.take_zero]
        rw [hpos]
      subst hteq
      rw [← h]
      constructor
      · intro u hu
        rcases List.mem_append.1 hu with hmem | hmem
        · exact hgood u hmem
        · rcases List.mem_singleton.1 hmem with rfl
          refine ⟨rfl, rfl, le_rfl, le_rfl, fun _ => rfl, ?_, ?_, ?_, ?_, ?_⟩
          · show EOF ≠ Not
            decide
          · show EOF ≠ Colon
            decide
          · show EOF ≠ Semi
            decide
          · show EOF ≠ Comment
            decide
          · show EOF ≠ Newline
            decide
      · exact List.getLast?_concat _
    case isFalse heof =>
      cases hn : ({ l with start := l.position }.nextToken) <;> rw [hn] at h
      · exact absurd h (by simp)
      case some r =>
      obtain ⟨hb, hf, hi, hp, htok⟩ := nextToken_step hn
      simp only [Option.some_bind] at h
      rw [hb] at h
      simp only [if_true] at h
      have hres := ih r.1 toks h ?_
      · rw [hf, hi] at hres
        exact hres
      · intro t ht
        rw [hf, hi]
        rcases htok t ht with hmem | hg
        · exact hgood t hmem
        · exact hg


/-- Every token sequence returned by `Lex` consists of invariant-satisfying
tokens and ends with the `EOF` token at the final offset. -/
theorem Lex_spec {filename input : List Char} {toks : List Token}
    (h : Lex filename input = some toks) :
    (∀ t ∈ toks, goodTok filename input t) ∧
      toks.getLast? = some (eofTokenAt filename input) := by
  have := lexLoopF_spec (input.length + 1) (mkLexer filename input) toks h
    (by simp [mkLexer])
  exact this

/-- When the cursor is already past `len(input) + 1`, the `EOF` slice is out of
range, so the loop aborts for every fuel value. -/
theorem lexLoopF_none_of_big : ∀ (fuel : Nat) (l : lexer),
    l.input.length < l.position → lexLoopF fuel l = none := by
  intro fuel l hbig
  cases fuel with
  | zero => rfl
  | succ n =>
    rw [lexLoopF, if_pos (by omega)]
    rw [lexer.newToken, goSlice, if_neg ?_]
    · rfl
    · show ¬(l.position ≤ l.position ∧ l.position ≤ l.input.length)
      omega

/-- The fuel of `lexLoopF` is irrelevant once it covers the remaining distance
to the end of the input: the fuel `len(input) + 1` used by `Lex` is always
enough, because the cursor strictly advances each iteration. -/
theorem lexLoopF_stable : ∀ (n m : Nat) (l : lexer),
    l.input.length + 1 ≤ l.position + n → l.input.length + 1 ≤ l.position + m →
    lexLoopF n l = lexLoopF m l := by
  intro n
  induction n with
  | zero =>
    intro m l hn hm
    rw [show lexLoopF 0 l = none from rfl, lexLoopF_none_of_big m l (by omega)]
  | succ n ih =>
    intro m l hn hm
    cases m with
    | zero =>
      rw [show lexLoopF 0 l = none from rfl, lexLoopF_none_of_big (n + 1) l (by omega)]
    | succ m =>
      rw [lexLoopF, lexLoopF]
      by_cases heof : l.input.length ≤ l.position
      · rw [if_pos heof, if_pos heof]
      · rw [if_neg heof, if_neg heof]
        cases hnx : ({ l with start := l.position }.nextToken)
        · rfl
        rename_i r
        obtain ⟨hb, hf, hi, hp, htok⟩ := nextToken_step hnx
        simp only [Option.some_bind]
        rw [hb]
        simp only [if_true]
        have hi2 : r.1.input.length = l.input.length := by rw [hi]
        have hp2 : l.position < r.1.position := hp
        exact ih m r.1 (by omega) (by omega)


/-- At a dispatch point (`start = position`), `newToken` builds the empty-text
token `opTok`. -/
theorem newToken_dispatch {l : lexer} (k : Nat) (hs : l.start = l.position)
    (hp : l.position ≤ l.input.length) : l.newToken k = some (opTok l k) := by
  rw [newToken_eq k (by omega) hp]
  rw [mkTok, opTok, hs]
  simp [listSlice]

/-- Computation rule for `emitAdvance` at a dispatch point. -/
theorem emitAdvance_dispatch {l : lexer} (k a : Nat) (hs : l.start = l.position)
    (hp : l.position ≤ l.input.length) :
    emitAdvance l k a =
      some ({ l with tokens := l.tokens ++ [opTok l k], position := l.position + a }, true) := by
  rw [emitAdvance, newToken_dispatch k hs hp]
  rfl


theorem lexIdentifier_eq {l : lexer} (hs : l.start = l.position)
    (hp : l.position < l.input.length) :
    l.lexIdentifier =
      some ({ l with tokens := l.tokens ++ [identTokenAt l], position := identStop l }, true) := by
  have hge := identStop_ge l
  have hle := identStop_le hp
  simp only [lexer.lexIdentifier]
  rw [goSlice,
    if_pos (show l.start ≤ identStop l ∧ identStop l ≤ l.input.length by omega)]
  simp only [Option.some_bind]
  rw [hs]
  split
  case _ kw hk =>
    rw [newToken_eq kw (show l.position ≤ identStop l by omega)
      (show identStop l ≤ l.input.length from hle)]
    simp only [Option.map_some', Option.some.injEq, Prod.mk.injEq]
    refine ⟨?_, trivial⟩
    rw [mkTok, identTokenAt, hk]
    rfl
  case _ hk =>
    rw [newToken_eq Identifier (show l.position ≤ identStop l by omega)
      (show identStop l ≤ l.input.length from hle)]
    simp only [Option.map_some', Option.some.injEq, Prod.mk.injEq]
    refine ⟨?_, trivial⟩
    rw [mkTok, identTokenAt, hk]
    rfl


/-- C3 (amended): at a dispatch point, each of the two-character operators
`->`, `||`, `&&`, `!=`, `>=`, `<=`, `==` emits exactly one two-character-kind
token and advances the cursor by two when the next character matches.
Otherwise, when a next character exists: a `'-'` not followed by `'>'` emits
exactly two `Minus` tokens and advances one; an unmatched `'|'` or `'&'` emits
no token and silently advances one; `'!'` falls back to `Equal`; `'>'` to
`Greater`; `'<'` to `Less`; and `'='` falls back to `Assign` (assignment), not
to an equality-kind token.  When the operator character is the last character
of the input, the unguarded lookahead aborts the scan. -/
theorem C3_lookahead_amended (l : lexer) (hs : l.start = l.position) :
    (goIndex l.input l.position = some '-' → goIndex l.input (l.position + 1) = some '>' →
      l.nextToken =
        some ({ l with tokens := l.tokens ++ [opTok l Arrow], position := l.position + 2 }, true)) ∧
    (∀ d, goIndex l.input l.position = some '-' → goIndex l.input (l.position + 1) = some d →
      d ≠ '>' →
      l.nextToken =
        some ({ l with
            tokens := l.tokens ++ [opTok l Minus, opTok l Minus],
            position := l.position + 1 }, true)) ∧
    (goIndex l.input l.position = some '|' → goIndex l.input (l.position + 1) = some '|' →
      l.nextToken =
        some ({ l with tokens := l.tokens ++ [opTok l Or], position := l.position + 2 }, true)) ∧
    (∀ d, goIndex l.input l.position = some '|' → goIndex l.input (l.position + 1) = some d →
      d ≠ '|' →
      l.nextToken = some ({ l with position := l.position + 1 }, true)) ∧
    (goIndex l.input l.position = some '&' → goIndex l.input (l.position + 1) = some '&' →
      l.nextToken =
        some ({ l with tokens := l.tokens ++ [opTok l And], position := l.position + 2 }, true)) ∧
    (∀ d, goIndex l.input l.position = some '&' → goIndex l.input (l.position + 1) = some d →
      d ≠ '&' →
      l.nextToken = some ({ l with position := l.position + 1 }, true)) ∧
    (goIndex l.input l.position = some '!' → goIndex l.input (l.position + 1) = some '=' →
      l.nextToken =
        some ({ l with
            tokens := l.tokens ++ [opTok l NotEqual],
            position := l.position + 2 }, true)) ∧
    (∀ d, goIndex l.input l.position = some '!' → goIndex l.input (l.position + 1) = some d →
      d ≠ '=' →
      l.nextToken =
        some ({ l with tokens := l.tokens ++ [opTok l Equal], position := l.position + 1 }, true)) ∧
    (goIndex l.input l.position = some '>' → goIndex l.input (l.position + 1) = some '=' →
      l.nextToken =
        some ({ l with
            tokens := l.tokens ++ [opTok l GreaterEqual],
            position := l.position + 2 }, true)) ∧
    (∀ d, goIndex l.input l.position = some '>' → goIndex l.input (l.position + 1) = some d →
      d ≠ '=' →
      l.nextToken =
        some ({ l with
            tokens := l.tokens ++ [opTok l Greater],
            position := l.position + 1 }, true)) ∧
    (goIndex l.input l.position = some '<' → goIndex l.input (l.position + 1) = some '=' →
      l.nextToken =
        some ({ l with
            tokens := l.tokens ++ [opTok l LessEqual],
            position := l.position + 2 }, true)) ∧
    (∀ d, goIndex l.input l.position = some '<' → goIndex l.input (l.position + 1) = some d →
      d ≠ '=' →
      l.nextToken =
        some ({ l with tokens := l.tokens ++ [opTok l Less], position := l.position + 1 }, true)) ∧
    (goIndex l.input l.position = some '=' → goIndex l.input (l.position + 1) = some '=' →
      l.nextToken =
        some ({ l with tokens := l.tokens ++ [opTok l Equal], position := l.position + 2 }, true)) ∧
    (∀ d, goIndex l.input l.position = some '=' → goIndex l.input (l.position + 1) = some d →
      d ≠ '=' →
      l.nextToken =
        some ({ l with
            tokens := l.tokens ++ [opTok l Assign],
            position := l.position + 1 }, true)) ∧
    (∀ c, goIndex l.input l.position = some c →
      (c = '-' ∨ c = '|' ∨ c = '&' ∨ c = '!' ∨ c = '>' ∨ c = '<' ∨ c = '=') →
      goIndex l.input (l.position + 1) = none → l.nextToken = none) := by
  refine ⟨?_, ?_, ?_, ?_, ?_, ?_, ?_, ?_, ?_, ?_, ?_, ?_, ?_, ?_, ?_⟩
  · intro h1 h2
    have hp := Nat.le_of_lt (goIndex_lt h1)
    rw [lexer.nextToken, h1, h2]
    norm_num
    exact emitAdvance_dispatch Arrow 2 hs hp
  · intro d h1 h2 h3
    have hp := Nat.le_of_lt (goIndex_lt h1)
    rw [lexer.nextToken, h1, h2]
    norm_num [h3]
    rw [newToken_dispatch Minus hs hp]
    simp only [Option.some_bind]
    rw [@emitAdvance_dispatch (l.appendTok (opTok l Minus)) Minus 1 hs hp]
    simp [lexer.appendTok, opTok, List.append_assoc]
  · intro h1 h2
    have hp := Nat.le_of_lt (goIndex_lt h1)
    rw [lexer.nextToken, h1, h2]
    norm_num
    exact emitAdvance_dispatch Or 2 hs hp
  · intro d h1 h2 h3
    rw [lexer.nextToken, h1, h2]
    simp [h3]
  · intro h1 h2
    have hp := Nat.le_of_lt (goIndex_lt h1)
    rw [lexer.nextToken, h1, h2]
    norm_num
    exact emitAdvance_dispatch And 2 hs hp
  · intro d h1 h2 h3
    rw [lexer.nextToken, h1, h2]
    simp [h3]
  · intro h1 h2
    have hp := Nat.le_of_lt (goIndex_lt h1)
    rw [lexer.nextToken, h1, h2]
    norm_num
    exact emitAdvance_dispatch NotEqual 2 hs hp
  · intro d h1 h2 h3
    have hp := Nat.le_of_lt (goIndex_lt h1)
    rw [lexer.nextToken, h1, h2]
    norm_num [h3]
    exact emitAdvance_dispatch Equal 1 hs hp
  · intro h1 h2
    have hp := Nat.le_of_lt (goIndex_lt h1)
    rw [lexer.nextToken, h1, h2]
    norm_num
    exact emitAdvance_dispatch GreaterEqual 2 hs hp
  · intro d h1 h2 h3
    have hp := Nat.le_of_lt (goIndex_lt h1)
    rw [lexer.nextToken, h1, h2]
    norm_num [h3]
    exact emitAdvance_dispatch Greater 1 hs hp
  · intro h1 h2
    have hp := Nat.le_of_lt (goIndex_lt h1)
    rw [lexer.nextToken, h1, h2]
    norm_num
    exact emitAdvance_dispatch LessEqual 2 hs hp
  · intro d h1 h2 h3
    have hp := Nat.le_of_lt (goIndex_lt h1)
    rw [lexer.nextToken, h1, h2]
    norm_num [h3]
    exact emitAdvance_dispatch Less 1 hs hp
  · intro h1 h2
    have hp := Nat.le_of_lt (goIndex_lt h1)
    rw [lexer.nextToken, h1, h2]
    norm_num
    exact emitAdvance_dispatch Equal 2 hs hp
  · intro d h1 h2 h3
    have hp := Nat.le_of_lt (goIndex_lt h1)
    rw [lexer.nextToken, h1, h2]
    norm_num [h3]
    exact emitAdvance_dispatch Assign 1 hs hp
  · intro c h1 hmem h2
    rw [lexer.nextToken, h1, h2]
    rcases hmem with rfl | rfl | rfl | rfl | rfl | rfl | rfl <;> simp


/-- C6 (amended): for every character not matched by any dispatch rule (not
whitespace, not a single- or two-character operator head, not a letter, digit
or quote — for example `'@'` or a bare newline), the scanner emits exactly one
`Error`-kind token with empty text and an empty span at that offset, and
resumes scanning at the following character; this branch itself never aborts
the scan. -/
theorem C6_unrecognized_amended (l : lexer) (c : Char) (hs : l.start = l.position)
    (hc : goIndex l.input l.position = some c)
    (w1 : c ≠ ' ') (w2 : c ≠ '\t') (w3 : c ≠ '\r')
    (p1 : c ≠ '%') (p2 : c ≠ '.') (p3 : c ≠ ',') (p4 : c ≠ ';') (p5 : c ≠ '{') (p6 : c ≠ '}')
    (p7 : c ≠ '[') (p8 : c ≠ ']') (p9 : c ≠ '(') (p10 : c ≠ ')') (p11 : c ≠ '+') (p12 : c ≠ '/')
    (p13 : c ≠ '*')
    (o1 : c ≠ '-') (o2 : c ≠ '|') (o3 : c ≠ '&') (o4 : c ≠ '!') (o5 : c ≠ '>') (o6 : c ≠ '<')
    (o7 : c ≠ '=')
    (hletter : unicodeIsLetter c = false) (hdigit : unicodeIsDigit c = false)
    (hquote : c ≠ '"') :
    l.nextToken =
      some ({ l with tokens := l.tokens ++ [opTok l Error], position := l.position + 1 }, true) := by
  have hp := Nat.le_of_lt (goIndex_lt hc)
  have hwsne : ¬(c = ' ' ∨ c = '\t' ∨ c = '\r') := by
    rintro (rfl | rfl | rfl)
    · exact w1 rfl
    · exact w2 rfl
    · exact w3 rfl
  rw [lexer.nextToken, hc]
  simp only [if_neg hwsne, if_neg p1, if_neg p2, if_neg p3, if_neg p4, if_neg p5, if_neg p6,
    if_neg p7, if_neg p8, if_neg p9, if_neg p10, if_neg p11, if_neg p12, if_neg p13,
    if_neg o1, if_neg o2, if_neg o3, if_neg o4, if_neg o5, if_neg o6, if_neg o7,
    if_neg (show ¬(unicodeIsLetter c = true) by simp [hletter]),
    if_neg (show ¬(unicodeIsDigit c = true) by simp [hdigit]),
    if_neg hquote]
  exact emitAdvance_dispatch Error 1 hs hp

/-- At a dispatch point the `newToken` slice is empty, so the built token is
the empty-text `opTok`. -/
theorem mkTok_dispatch {l : lexer} (hs : l.start = l.position) (k : Nat) :
    mkTok l k = opTok l k := by
  rw [mkTok, opTok, hs]
  simp [listSlice]

/-- Full characterization of a successful `lexString`: exactly the token
`strTokenAt` is appended — `Text` strictly between the quotes, `FullText`
including both — and the cursor lands one past the closing quote. -/
theorem lexString_eq {l l1 : lexer} {b : Bool} (h : l.lexString = some (l1, b)) :
    b = true ∧
      l1 = { l with tokens := l.tokens ++ [strTokenAt l], position := strStop l + 1 } := by
  simp only [lexer.lexString] at h
  cases htx : goSlice l.input (l.start + 1) (strStop l + 1 - 1) <;> rw [htx] at h
  · exact absurd h (by simp)
  case some text =>
  cases hft : goSlice l.input l.start (strStop l + 1) <;> rw [hft] at h
  · exact absurd h (by simp)
  case some fullText =>
  simp only [Option.some_bind, Option.map_some', Option.some.injEq, Prod.mk.injEq] at h
  obtain ⟨hl1, hb⟩ := h
  obtain ⟨_, _, htx2⟩ := goSlice_inv htx
  obtain ⟨_, _, hft2⟩ := goSlice_inv hft
  subst htx2 hft2 hb
  refine ⟨rfl, ?_⟩
  rw [← hl1]
  simp [strTokenAt, NewToken, Nat.add_sub_cancel]

/-- Full characterization of a successful `lexNumber`: when the decimal branch
fired, a `Decimal` token and then an `Int` token over the same span are
appended; otherwise a single `Int` token.  Either way both `Text` fields are
the exact matched slice `l.input[l.start:numStop l]`. -/
theorem lexNumber_eq {l l1 : lexer} {b : Bool} (h : l.lexNumber = some (l1, b)) :
    b = true ∧
    ((numberScan (l.input.drop (l.position + 1))).2 = true →
      l1 = { l with
              tokens := l.tokens ++ [numTokenAt l Decimal, numTokenAt l Int],
              position := numStop l }) ∧
    ((numberScan (l.input.drop (l.position + 1))).2 = false →
      l1 = { l with tokens := l.tokens ++ [numTokenAt l Int], position := numStop l }) := by
  simp only [lexer.lexNumber] at h
  by_cases hdec : (numberScan (l.input.drop (l.position + 1))).2 = true
  · rw [if_pos hdec] at h
    cases htd : lexer.newToken
        { l with position := l.position + 1 + (numberScan (l.input.drop (l.position + 1))).1 }
        Decimal <;> rw [htd] at h
    · exact absurd h (by simp)
    rename_i tDec
    simp only [Option.some_bind] at h
    cases hti : lexer.newToken
        ({ l with
            position := l.position + 1 +
              (numberScan (l.input.drop (l.position + 1))).1 }.appendTok tDec)
        Int <;> rw [hti] at h
    · exact absurd h (by simp)
    rename_i tInt
    simp only [Option.map_some', Option.some.injEq, Prod.mk.injEq] at h
    obtain ⟨hl1, hb⟩ := h
    obtain ⟨_, _, htd2⟩ := newToken_inv htd
    obtain ⟨_, _, hti2⟩ := newToken_inv hti
    subst htd2 hti2 hb
    refine ⟨rfl, fun _ => ?_, fun hf => absurd hdec (by simp [hf])⟩
    rw [← hl1]
    simp [lexer.appendTok, numTokenAt, mkTok, numStop, listSlice, List.append_assoc]
  · rw [if_neg hdec] at h
    have hf : (numberScan (l.input.drop (l.position + 1))).2 = false := by
      revert hdec
      cases (numberScan (l.input.drop (l.position + 1))).2 <;> simp
    cases hti : lexer.newToken
        { l with position := l.position + 1 + (numberScan (l.input.drop (l.position + 1))).1 }
        Int <;> rw [hti] at h
    · exact absurd h (by simp)
    rename_i tInt
    simp only [Option.map_some', Option.some.injEq, Prod.mk.injEq] at h
    obtain ⟨hl1, hb⟩ := h
    obtain ⟨_, _, hti2⟩ := newToken_inv hti
    subst hti2 hb
    refine ⟨rfl, fun ht => absurd ht hdec, fun _ => ?_⟩
    rw [← hl1]
    simp [lexer.appendTok, numTokenAt, mkTok, numStop, listSlice]

/-- Every append-then-advance branch (the single- and two-character operator
branches and the `Error` branch) at a dispatch point appends exactly the
empty-text token `opTok`. -/
theorem emitAdvance_text_empty {l l1 : lexer} {b : Bool} {k a : Nat}
    (hs : l.start = l.position) (h : emitAdvance l k a = some (l1, b)) :
    l1.tokens = l.tokens ++ [opTok l k] ∧ (opTok l k).Text = [] ∧
      (opTok l k).FullText = [] := by
  obtain ⟨hb, hs2, hp, hl1⟩ := emitAdvance_inv h
  subst hl1
  refine ⟨?_, rfl, rfl⟩
  show l.tokens ++ [mkTok l k] = l.tokens ++ [opTok l k]
  rw [mkTok_dispatch hs]

/-- Dispatch on a letter runs `lexIdentifier`: the matched identifier text is
looked up in the keyword table and the token kind is the keyword's kind on an
exact match, else `Identifier`. -/
theorem nextToken_letter_eq (l : lexer) (c : Char) (hs : l.start = l.position)
    (hc : goIndex l.input l.position = some c) (hA : unicodeIsLetter c = true) :
    l.nextToken =
      some ({ l with tokens := l.tokens ++ [identTokenAt l], position := identStop l }, true) := by
  have hp := goIndex_lt hc
  have hne : ∀ x : Char, unicodeIsLetter x = false → c ≠ x := by
    intro x hx hcx
    subst hcx
    rw [hA] at hx
    exact Bool.noConfusion hx
  have hwsne : ¬(c = ' ' ∨ c = '\t' ∨ c = '\r') := by
    rintro (rfl | rfl | rfl) <;> revert hA <;> decide
  rw [lexer.nextToken, hc]
  simp only [if_neg hwsne,
    if_neg (hne '%' (by decide)), if_neg (hne '.' (by decide)), if_neg (hne ',' (by decide)),
    if_neg (hne ';' (by decide)), if_neg (hne '{' (by decide)), if_neg (hne '}' (by decide)),
    if_neg (hne '[' (by decide)), if_neg (hne ']' (by decide)), if_neg (hne '(' (by decide)),
    if_neg (hne ')' (by decide)), if_neg (hne '+' (by decide)), if_neg (hne '/' (by decide)),
    if_neg (hne '*' (by decide)), if_neg (hne '-' (by decide)), if_neg (hne '|' (by decide)),
    if_neg (hne '&' (by decide)), if_neg (hne '!' (by decide)), if_neg (hne '>' (by decide)),
    if_neg (hne '<' (by decide)), if_neg (hne '=' (by decide)), if_pos hA]
  exact lexIdentifier_eq hs hp


/-- C1: the claim that scanning never reads outside the input buffer fails on
the code: on input `"-"` the one-character lookahead `l.input[l.position+1]`
reads index 1 of a one-byte buffer (a Go index-out-of-range panic, modelled by
`none`), so the scan aborts. -/
theorem C1_scan_out_of_bounds_eval : Lex [] ['-'] = none := by rfl

/-- C2 counterexample: on input `"&"` the scan aborts on the out-of-bounds
lookahead and returns no token sequence at all, refuting the claim as stated
(for every input, a non-empty `EOF`-terminated sequence is returned). -/
theorem C2_no_sequence_on_trailing_amp : Lex [] ['&'] = none := by rfl

/-- C2 (amended): `Lex` always terminates, and on every input on which the
scan completes without an out-of-bounds abort, the returned token sequence is
non-empty and its last token is the end-of-input token: kind `EOF`, with an
empty span `start = end = len(input)` over the whole buffer. -/
theorem C2_terminates_with_eof (filename input : List Char) (toks : List Token)
    (h : Lex filename input = some toks) :
    toks ≠ [] ∧ toks.getLast? = some (eofTokenAt filename input) := by
  obtain ⟨hg, hl⟩ := Lex_spec h
  refine ⟨?_, hl⟩
  intro he
  rw [he] at hl
  exact Option.noConfusion hl

/-- C2 witness: the amended claim at the concrete input `"a"`. -/
theorem C2_terminates_with_eof_witness :
    (Lex [] ['a']).getD [] ≠ [] ∧
      ((Lex [] ['a']).getD []).getLast? = some (eofTokenAt [] ['a']) :=
  C2_terminates_with_eof [] ['a'] ((Lex [] ['a']).getD []) rfl

/-- C3 counterexample: scanning `"-a"` emits two `Minus` tokens, not exactly
one; a lone `'='` (in `"=a"`) falls back to `Assign`, not to an equality-kind
token; and scanning `"|"` alone aborts on the out-of-bounds lookahead instead
of silently advancing. -/
theorem C3_fallback_counterexample :
    (((Lex [] ['-', 'a']).getD []).filter (fun t => t.Kind == Minus)).length = 2 ∧
    ((Lex [] ['=', 'a']).getD []).map (fun t => t.Kind) = [Assign, Identifier, EOF] ∧
    Assign ≠ Equal ∧
    Lex [] ['|'] = none :=
  ⟨by rfl, by rfl, by decide, by rfl⟩

/-- C3 witness: the arrow case of the amended claim at a concrete state. -/
theorem C3_lookahead_amended_witness :
    (mkLexer [] ['-', '>']).nextToken =
      some ({ mkLexer [] ['-', '>'] with
                tokens := [opTok (mkLexer [] ['-', '>']) Arrow],
                position := 2 },
        true) :=
  (C3_lookahead_amended (mkLexer [] ['-', '>']) rfl).1 rfl rfl

/-- C4: evaluation of number lexing.  `"123"` yields one `Int` token, but
`"12.5"` and `"12."` each yield a `Decimal` token *followed by an `Int` token
over the same span*: the `break` leaves the digit loop after the decimal token
is appended, but the unconditional `Int` append at the end of `lexNumber` still
runs — the number scan is not terminated by emitting the decimal token. -/
theorem C4_number_tokens_eval :
    ((Lex [] ['1', '2', '3']).getD []).map (fun t => (t.Kind, t.Text)) =
      [(Int, ['1', '2', '3']), (EOF, [])] ∧
    ((Lex [] ['1', '2', '.', '5']).getD []).map (fun t => (t.Kind, t.Text)) =
      [(Decimal, ['1', '2', '.', '5']), (Int, ['1', '2', '.', '5']), (EOF, [])] ∧
    ((Lex [] ['1', '2', '.']).getD []).map (fun t => (t.Kind, t.Text)) =
      [(Decimal, ['1', '2', '.']), (Int, ['1', '2', '.']), (EOF, [])] :=
  ⟨by rfl, by rfl, by rfl⟩

/-- C5 counterexample: the `Plus` token produced for `"+"` has empty `Text`
(`newToken` slices `input[start:position]` before the cursor advances), not the
matched lexeme `"+"`, refuting the universally quantified part of the claim. -/
theorem C5_operator_text_counterexample :
    ((Lex [] ['+']).getD []).map (fun t => (t.Kind, t.Text)) = [(Plus, []), (EOF, [])] ∧
    (['+'] : List Char) ≠ [] :=
  ⟨by rfl, by decide⟩

/-- C5 (amended): universally over each token category — a successful
`lexString` appends exactly the `String`-kind token whose `Text` is the
content strictly between the quotes and whose `FullText` includes both quote
characters; identifier and keyword tokens carry the exact matched lexeme as
both `Text` and `FullText`; a successful `lexNumber` appends tokens whose
`Text` is the exact matched lexeme; but every token appended by the
append-then-advance pattern of the single- and two-character operator and
`Error` branches, and the `EOF` token, is created before the cursor advances
and carries empty `Text`.  Concretely: scanning `"\"hi\""` yields exactly one
`String`-kind token with `Text = "hi"` and `FullText = "\"hi\""`; `"fun"`,
`"ab"`, `"12.5"` and `"42"` carry their lexemes; `"->"`, `"@"` and `"+"`
tokens have empty text. -/
theorem C5_token_text_amended :
    (∀ (l l1 : lexer) (b : Bool), l.lexString = some (l1, b) →
      b = true ∧
        l1 = { l with tokens := l.tokens ++ [strTokenAt l], position := strStop l + 1 }) ∧
    (∀ (l : lexer) (c : Char), l.start = l.position → goIndex l.input l.position = some c →
      unicodeIsLetter c = true →
      l.nextToken =
          some ({ l with
                    tokens := l.tokens ++ [identTokenAt l],
                    position := identStop l },
            true) ∧
        (identTokenAt l).Text = listSlice l.input l.position (identStop l) ∧
        (identTokenAt l).FullText = listSlice l.input l.position (identStop l)) ∧
    (∀ (l l1 : lexer) (b : Bool), l.lexNumber = some (l1, b) →
      b = true ∧
      ((numberScan (l.input.drop (l.position + 1))).2 = true →
        l1 = { l with
                tokens := l.tokens ++ [numTokenAt l Decimal, numTokenAt l Int],
                position := numStop l }) ∧
      ((numberScan (l.input.drop (l.position + 1))).2 = false →
        l1 = { l with tokens := l.tokens ++ [numTokenAt l Int], position := numStop l })) ∧
    (∀ (l l1 : lexer) (b : Bool) (k a : Nat), l.start = l.position →
      emitAdvance l k a = some (l1, b) →
      l1.tokens = l.tokens ++ [opTok l k] ∧ (opTok l k).Text = [] ∧
        (opTok l k).FullText = []) ∧
    (∀ filename input : List Char,
      (eofTokenAt filename input).Text = [] ∧ (eofTokenAt filename input).FullText = []) ∧
    ((Lex [] ['\"', 'h', 'i', '\"']).getD []).map (fun t => (t.Kind, t.Text, t.FullText)) =
      [(String, ['h', 'i'], ['\"', 'h', 'i', '\"']), (EOF, [], [])] ∧
    ((Lex [] ['f', 'u', 'n']).getD []).map (fun t => (t.Kind, t.Text, t.FullText)) =
      [(Fun, ['f', 'u', 'n'], ['f', 'u', 'n']), (EOF, [], [])] ∧
    ((Lex [] ['a', 'b']).getD []).map (fun t => (t.Kind, t.Text, t.FullText)) =
      [(Identifier, ['a', 'b'], ['a', 'b']), (EOF, [], [])] ∧
    ((Lex [] ['1', '2', '.', '5']).getD []).map (fun t => (t.Kind, t.Text, t.FullText)) =
      [(Decimal, ['1', '2', '.', '5'], ['1', '2', '.', '5']),
        (Int, ['1', '2', '.', '5'], ['1', '2', '.', '5']), (EOF, [], [])] ∧
    ((Lex [] ['4', '2']).getD []).map (fun t => (t.Kind, t.Text, t.FullText)) =
      [(Int, ['4', '2'], ['4', '2']), (EOF, [], [])] ∧
    ((Lex [] ['-', '>']).getD []).map (fun t => (t.Kind, t.Text, t.FullText)) =
      [(Arrow, [], []), (EOF, [], [])] ∧
    ((Lex [] ['@']).getD []).map (fun t => (t.Kind, t.Text, t.FullText)) =
      [(Error, [], []), (EOF, [], [])] ∧
    ((Lex [] ['+']).getD []).map (fun t => (t.Kind, t.Text, t.FullText)) =
      [(Plus, [], []), (EOF, [], [])] := by
  refine ⟨?_, ?_, ?_, ?_, ?_, by rfl, by rfl, by rfl, by rfl, by rfl, by rfl, by rfl, by rfl⟩
  · intro l l1 b h
    exact lexString_eq h
  · intro l c hs hc hA
    exact ⟨nextToken_letter_eq l c hs hc hA, rfl, rfl⟩
  · intro l l1 b h
    exact lexNumber_eq h
  · intro l l1 b k a hs h
    exact emitAdvance_text_empty hs h
  · intro filename input
    exact ⟨rfl, rfl⟩

/-- C5 witness: the string clause of the amended claim applied at the concrete
input `"\"hi\""`. -/
theorem C5_token_text_amended_witness :
    (true : Bool) = true ∧
      ({ mkLexer [] ['\"', 'h', 'i', '\"'] with
           tokens := [strTokenAt (mkLexer [] ['\"', 'h', 'i', '\"'])],
           position := strStop (mkLexer [] ['\"', 'h', 'i', '\"']) + 1 } : lexer) =
        { mkLexer [] ['\"', 'h', 'i', '\"'] with
            tokens := (mkLexer [] ['\"', 'h', 'i', '\"']).tokens ++
              [strTokenAt (mkLexer [] ['\"', 'h', 'i', '\"'])],
            position := strStop (mkLexer [] ['\"', 'h', 'i', '\"']) + 1 } :=
  C5_token_text_amended.1 (mkLexer [] ['\"', 'h', 'i', '\"'])
    { mkLexer [] ['\"', 'h', 'i', '\"'] with
        tokens := [strTokenAt (mkLexer [] ['\"', 'h', 'i', '\"'])],
        position := strStop (mkLexer [] ['\"', 'h', 'i', '\"']) + 1 }
    true rfl

/-- C6 counterexample: the `Error` token for `"@"` has empty text, not `"@"`
(it is created before the cursor advances); and the scan is not panic-free on
every input — an unterminated string literal `"\""` aborts on an out-of-range
slice. -/
theorem C6_error_text_counterexample :
    ((Lex [] ['@']).getD []).map (fun t => (t.Kind, t.Text)) = [(Error, []), (EOF, [])] ∧
    ([] : List Char) ≠ ['@'] ∧
    Lex [] ['\"'] = none :=
  ⟨by rfl, by decide, by rfl⟩

/-- C6 witness: the amended claim at the concrete unrecognized character
`'@'`. -/
theorem C6_unrecognized_amended_witness :
    (mkLexer [] ['@']).nextToken =
      some ({ mkLexer [] ['@'] with
                tokens := [opTok (mkLexer [] ['@']) Error],
                position := 1 },
        true) :=
  C6_unrecognized_amended (mkLexer [] ['@']) '@' rfl rfl (by decide) (by decide) (by decide) (by decide)
    (by decide) (by decide) (by decide) (by decide) (by decide) (by decide) (by decide)
    (by decide) (by decide) (by decide) (by decide) (by decide) (by decide) (by decide)
    (by decide) (by decide) (by decide) (by decide) (by decide) (by decide) (by decide)
    (by decide)

/-- C7: a leading letter starts an identifier that continues while the next
character is a letter, digit, underscore, dot or apostrophe (`identStop`); the
full matched text is looked up in the fixed keyword table and the token kind is
the keyword's kind exactly on a full-lexeme match, else `Identifier`; scanning
`"fun"` yields exactly one `Fun` token with text `"fun"`, while `"funx"`
yields exactly one `Identifier` token with text `"funx"`. -/
theorem C7_identifier_keywords :
    (∀ (l : lexer) (c : Char), l.start = l.position → goIndex l.input l.position = some c →
      unicodeIsLetter c = true →
      l.nextToken =
        some ({ l with
                  tokens := l.tokens ++ [identTokenAt l],
                  position := identStop l },
          true)) ∧
    ((Lex [] ['f', 'u', 'n']).getD []).map (fun t => (t.Kind, t.Text)) =
      [(Fun, ['f', 'u', 'n']), (EOF, [])] ∧
    ((Lex [] ['f', 'u', 'n', 'x']).getD []).map (fun t => (t.Kind, t.Text)) =
      [(Identifier, ['f', 'u', 'n', 'x']), (EOF, [])] :=
  ⟨nextToken_letter_eq, by rfl, by rfl⟩

/-- C7 witness: the general identifier dispatch at the concrete input
`"fun"`. -/
theorem C7_identifier_keywords_witness :
    (mkLexer [] ['f', 'u', 'n']).nextToken =
      some ({ mkLexer [] ['f', 'u', 'n'] with
                tokens := [identTokenAt (mkLexer [] ['f', 'u', 'n'])],
                position := identStop (mkLexer [] ['f', 'u', 'n']) },
        true) :=
  C7_identifier_keywords.1 _ 'f' rfl rfl rfl

/-- C8: for every token produced by the scanner that is not a string-kind
token, its `Text` equals its `FullText` (trivia capture is not implemented). -/
theorem C8_text_eq_fulltext (filename input : List Char) (toks : List Token)
    (h : Lex filename input = some toks) :
    ∀ t ∈ toks, t.Kind ≠ String → t.Text = t.FullText := by
  intro t ht hk
  exact ((Lex_spec h).1 t ht).2.2.2.2.1 hk

/-- C8 witness: the claim applied to the `Plus` token of input `"+"`. -/
theorem C8_text_eq_fulltext_witness :
    (opTok (mkLexer [] ['+']) Plus).Text = (opTok (mkLexer [] ['+']) Plus).FullText :=
  C8_text_eq_fulltext [] ['+'] ((Lex [] ['+']).getD []) rfl _ (by decide) (by decide)

/-- C9: every token produced by `Lex(filename, input)` has a location whose
`Text()` is the entire input buffer (not the span's substring), whose `File()`
is the supplied file name, and whose offsets satisfy
`Start() ≤ End() ≤ len(input)`. -/
theorem C9_location_whole_buffer (filename input : List Char) (toks : List Token)
    (h : Lex filename input = some toks) :
    ∀ t ∈ toks, t.Location.Text = input ∧ t.Location.File = filename ∧
      t.Location.Start ≤ t.Location.End ∧ t.Location.End ≤ input.length := by
  intro t ht
  obtain ⟨h1, h2, h3, h4, _⟩ := (Lex_spec h).1 t ht
  exact ⟨h1, h2, h3, h4⟩

/-- C9 witness: the claim applied to the `Percent` token of `Lex("f", "%")`. -/
theorem C9_location_whole_buffer_witness :
    (opTok (mkLexer ['f'] ['%']) Percent).Location.Text = ['%'] ∧
    (opTok (mkLexer ['f'] ['%']) Percent).Location.File = ['f'] ∧
    (opTok (mkLexer ['f'] ['%']) Percent).Location.Start ≤
      (opTok (mkLexer ['f'] ['%']) Percent).Location.End ∧
    (opTok (mkLexer ['f'] ['%']) Percent).Location.End ≤ (['%'] : List Char).length :=
  C9_location_whole_buffer ['f'] ['%'] ((Lex ['f'] ['%']).getD []) rfl _ (by decide)

/-- C10: the token sequence returned by `Lex` never contains a token of kind
`Not`, `Colon`, `Semi`, `Comment` or `Newline`: `';'` is emitted with the
`Comma` kind, `':'` falls through to the unrecognized-character path and is
emitted as an `Error` token, `'!'` only ever yields `NotEqual` or `Equal`, and
no dispatch branch produces `Comment` or `Newline`. -/
theorem C10_kinds_never_emitted (filename input : List Char) (toks : List Token)
    (h : Lex filename input = some toks) :
    ((Lex [] [';']).getD []).map (fun t => t.Kind) = [Comma, EOF] ∧
    ((Lex [] [':']).getD []).map (fun t => t.Kind) = [Error, EOF] ∧
    ∀ t ∈ toks, t.Kind ≠ Not ∧ t.Kind ≠ Colon ∧ t.Kind ≠ Semi ∧ t.Kind ≠ Comment ∧
      t.Kind ≠ Newline := by
  refine ⟨by rfl, by rfl, ?_⟩
  intro t ht
  obtain ⟨_, _, _, _, _, h5, h6, h7, h8, h9⟩ := (Lex_spec h).1 t ht
  exact ⟨h5, h6, h7, h8, h9⟩

/-- C10 witness: the claim applied to the `Comma` token of input `";"`. -/
theorem C10_kinds_never_emitted_witness :
    (opTok (mkLexer [] [';']) Comma).Kind ≠ Not ∧
    (opTok (mkLexer [] [';']) Comma).Kind ≠ Colon ∧
    (opTok (mkLexer [] [';']) Comma).Kind ≠ Semi ∧
    (opTok (mkLexer [] [';']) Comma).Kind ≠ Comment ∧
    (opTok (mkLexer [] [';']) Comma).Kind ≠ Newline :=
  (C10_kinds_never_emitted [] [';'] ((Lex [] [';']).getD []) rfl).2.2 _ (by decide)

end tonho
